import Mathlib

/-!
Verification of the Baconian cipher codec (baconian.js) and the puzzle
controller (app.js) of the OSI-Model educational website.

Strings are modelled as Lean strings (lists of characters); the JavaScript
toUpperCase is modelled character-wise with the ASCII Char.toUpper, which
agrees with the source on the whole claim domain. Machine integers do not
occur: all arithmetic is small natural-number arithmetic. Missing DOM
elements are modelled as the none case of Option arguments.
-/

/-- Digit of one character of the already-uppercased group, mirroring the
loop body of decodeGroup in baconian.js: the character A contributes the
binary digit 0, B contributes 1, anything else aborts with the unknown
result (modelled as none). -/
def abDigit (c : Char) : Option Nat :=
  if c = 'A' then some 0 else if c = 'B' then some 1 else none

/-- The character loop of decodeGroup in baconian.js: builds the list of
binary digits of an uppercased group, returning none as soon as one
character is neither A nor B (the early return of the loop). -/
def abDigits : List Char → Option (List Nat)
  | [] => some []
  | c :: cs =>
    match abDigit c with
    | none => none
    | some b =>
      match abDigits cs with
      | none => none
      | some bs => some (b :: bs)

/-- Value of a most-significant-bit-first digit list, mirroring
parseInt(binaryStr, 2) on a string of binary digit characters. -/
def bitsToNat (bits : List Nat) : Nat :=
  bits.foldl (fun acc b => 2 * acc + b) 0

/-- Character-wise uppercasing, modelling the JavaScript
abGroup.toUpperCase() call of baconian.js on its ASCII claim domain. -/
def strUpper (s : String) : String := ⟨s.data.map Char.toUpper⟩

/-- Embedding of window.BaconianCipher.decodeGroup (baconian.js, lines
33-68). The initial falsy-input guard of the source returns the unknown
marker for the empty string, which the length test subsumes; the source
test index < 0 cannot fire because parseInt of a binary digit string is
never negative, so only the index > 25 test remains. -/
def decodeGroup (abGroup : String) : Char :=
  let normalized := strUpper abGroup
  if normalized.length ≠ 5 then '?'
  else
    match abDigits normalized.data with
    | none => '?'
    | some bits =>
      let index := bitsToNat bits
      if index > 25 then '?'
      else Char.ofNat (65 + index)

/-- Value of five binary digits read most-significant-bit first. -/
lemma bitsToNat_five (b0 b1 b2 b3 b4 : Nat) :
    bitsToNat [b0, b1, b2, b3, b4] =
      16 * b0 + 8 * b1 + 4 * b2 + 2 * b3 + b4 := by
  simp [bitsToNat, List.foldl]
  ring

/-- Claim C1: for every 5-character string over the alphabet A, B (after
uppercasing), decodeGroup interprets the characters as a 5-bit binary
number (A = 0, B = 1, most significant bit first) and, when that value is
at most 25, returns the letter at that offset from the letter A; in
particular the four concrete decodings listed by the specification hold. -/
theorem decodeGroup_binary_mapping :
    (∀ (c0 c1 c2 c3 c4 : Char) (b0 b1 b2 b3 b4 : Nat),
      abDigit c0.toUpper = some b0 → abDigit c1.toUpper = some b1 →
      abDigit c2.toUpper = some b2 → abDigit c3.toUpper = some b3 →
      abDigit c4.toUpper = some b4 →
      16 * b0 + 8 * b1 + 4 * b2 + 2 * b3 + b4 ≤ 25 →
      decodeGroup ⟨[c0, c1, c2, c3, c4]⟩ =
        Char.ofNat (65 + (16 * b0 + 8 * b1 + 4 * b2 + 2 * b3 + b4)))
    ∧ decodeGroup "AAAAA" = 'A' ∧ decodeGroup "BAAAB" = 'R'
    ∧ decodeGroup "ABBBA" = 'O' ∧ decodeGroup "AABAA" = 'E' := by
  refine ⟨?_, by decide, by decide, by decide, by decide⟩
  intro c0 c1 c2 c3 c4 b0 b1 b2 b3 b4 h0 h1 h2 h3 h4 hv
  simp only [decodeGroup, strUpper, List.map]
  rw [if_neg (by simp [String.length])]
  simp only [abDigits, h0, h1, h2, h3, h4, bitsToNat_five]
  rw [if_neg (by omega)]

/-- Witness for decodeGroup_binary_mapping: the general conjunct applied
to a concrete mixed-case group. -/
theorem decodeGroup_binary_mapping_witness :
    decodeGroup ⟨['b', 'A', 'a', 'A', 'b']⟩ =
      Char.ofNat (65 + (16 * 1 + 8 * 0 + 4 * 0 + 2 * 0 + 1)) :=
  decodeGroup_binary_mapping.1 'b' 'A' 'a' 'A' 'b' 1 0 0 0 1
    (by decide) (by decide) (by decide) (by decide) (by decide) (by decide)

/-- Embedding of window.BaconianCipher.isValidGroup (baconian.js, lines
101-112): length must be exactly 5 (the falsy-input guard of the source
is subsumed, the empty string failing the length test), and every
character must uppercase to A or B. Unlike decodeGroup, no bound on the
numeric value of the group is checked. -/
def isValidGroup (group : String) : Bool :=
  if group.length ≠ 5 then false
  else group.data.all fun c => c.toUpper == 'A' || c.toUpper == 'B'

/-- Numeric value the specification ascribes to a group: each character
contributes a binary digit (B is 1, everything else 0), read most
significant bit first. Used only to state validity as the specification
words it. -/
def groupValueSpec (s : String) : Nat :=
  bitsToNat (s.data.map fun c => if c.toUpper = 'B' then 1 else 0)

/-- Validity of a group as the specification words it: length 5 after
case normalization, every character uppercases to A or B, and the 5-bit
value is at most 25. -/
def validGroupSpec (s : String) : Prop :=
  s.length = 5 ∧ (∀ c ∈ s.data, c.toUpper = 'A' ∨ c.toUpper = 'B')
    ∧ groupValueSpec s ≤ 25

instance (s : String) : Decidable (validGroupSpec s) := by
  unfold validGroupSpec
  infer_instance

/-- The digit loop succeeds exactly when every character is A or B. -/
lemma abDigits_isSome_iff (l : List Char) :
    (abDigits l).isSome ↔ ∀ c ∈ l, c = 'A' ∨ c = 'B' := by
  induction l with
  | nil => simp [abDigits]
  | cons c cs ih =>
    simp only [List.mem_cons, forall_eq_or_imp]
    constructor
    · intro h
      rcases hc : abDigit c with _ | b
      · simp [abDigits, hc] at h
      · rcases hcs : abDigits cs with _ | bs
        · simp [abDigits, hc, hcs] at h
        · refine ⟨?_, ih.mp (by simp [hcs])⟩
          by_cases hA : c = 'A'
          · exact Or.inl hA
          · by_cases hB : c = 'B'
            · exact Or.inr hB
            · simp [abDigit, hA, hB] at hc
    · rintro ⟨hc, hcs⟩
      have hsome : (abDigits cs).isSome := ih.mpr hcs
      rcases hcs' : abDigits cs with _ | bs
      · simp [hcs'] at hsome
      · rcases hc with hA | hB
        · simp [abDigits, abDigit, hA, hcs']
        · simp [abDigits, abDigit, hB, hcs']

/-- When the digit loop succeeds, the digits are 1 exactly at the B
characters. -/
lemma abDigits_some_val (l : List Char) (bs : List Nat)
    (h : abDigits l = some bs) :
    bs = l.map fun c => if c = 'B' then 1 else 0 := by
  induction l generalizing bs with
  | nil => simp [abDigits] at h; simp [h]
  | cons c cs ih =>
    rcases hc : abDigit c with _ | b
    · simp [abDigits, hc] at h
    · rcases hcs : abDigits cs with _ | bs'
      · simp [abDigits, hc, hcs] at h
      · simp only [abDigits, hc, hcs] at h
        have hb : b = if c = 'B' then 1 else 0 := by
          by_cases hA : c = 'A'
          · have : c ≠ 'B' := by rw [hA]; decide
            simp [abDigit, hA] at hc
            simp [this, hc.symm]
          · by_cases hB : c = 'B'
            · simp [abDigit, hA, hB] at hc
              simp [hB, hc.symm]
            · simp [abDigit, hA, hB] at hc
        have hbs := Option.some.inj h
        rw [← hbs, List.map_cons, ← ih bs' hcs, hb]

/-- Uppercasing does not change the length of a string. -/
lemma strUpper_length (s : String) : (strUpper s).length = s.length := by
  show (s.data.map Char.toUpper).length = s.data.length
  exact List.length_map _ _

/-- Complete case analysis of decodeGroup: on a valid group it returns the
letter at the offset of the group value from the letter A, on everything
else the unknown marker. -/
lemma decodeGroup_cases (s : String) :
    (validGroupSpec s ∧ groupValueSpec s ≤ 25
      ∧ decodeGroup s = Char.ofNat (65 + groupValueSpec s))
    ∨ (¬ validGroupSpec s ∧ decodeGroup s = '?') := by
  by_cases hlen : s.length = 5
  · have hdata : (strUpper s).data = s.data.map Char.toUpper := rfl
    have hlen' : (strUpper s).length = 5 := by
      rw [strUpper_length, hlen]
    rcases hd : abDigits (strUpper s).data with _ | bits
    · right
      have hnot : ¬ ∀ c ∈ s.data, c.toUpper = 'A' ∨ c.toUpper = 'B' := by
        intro hall
        have : (abDigits (strUpper s).data).isSome := by
          rw [abDigits_isSome_iff, hdata]
          simpa using hall
        simp [hd] at this
      refine ⟨fun hv => hnot hv.2.1, ?_⟩
      simp [decodeGroup, hlen', hd]
    · have hbits : bitsToNat bits = groupValueSpec s := by
        rw [abDigits_some_val _ _ hd, hdata, groupValueSpec, List.map_map]
        rfl
      have hall : ∀ c ∈ s.data, c.toUpper = 'A' ∨ c.toUpper = 'B' := by
        have : (abDigits (strUpper s).data).isSome := by simp [hd]
        rw [abDigits_isSome_iff, hdata] at this
        simpa using this
      by_cases hval : groupValueSpec s ≤ 25
      · left
        refine ⟨⟨hlen, hall, hval⟩, hval, ?_⟩
        simp [decodeGroup, hlen', hd, hbits, Nat.not_lt.mpr hval]
      · right
        refine ⟨fun hv => hval hv.2.2, ?_⟩
        simp [decodeGroup, hlen', hd, hbits, Nat.lt_of_not_le hval]
  · right
    have hlen' : (strUpper s).length ≠ 5 := by
      rw [strUpper_length]
      exact hlen
    exact ⟨fun hv => hlen hv.1, by simp [decodeGroup, hlen']⟩

/-- Letters produced from offsets at most 25 are uppercase and distinct
from the unknown marker. -/
lemma ofNat_letter_range (v : Nat) (hv : v ≤ 25) :
    Char.ofNat (65 + v) ≠ '?' ∧ 'A' ≤ Char.ofNat (65 + v)
      ∧ Char.ofNat (65 + v) ≤ 'Z' := by
  interval_cases v <;> decide

/-- Claim C2: decodeGroup returns the unknown marker exactly on invalid
inputs (wrong length after case normalization, a character outside the
two-letter alphabet, or a 5-bit value of 26 to 31), and on every valid
input it returns a single uppercase letter between A and Z. Being a total
Lean function, it never raises an error. -/
theorem decodeGroup_unknown_iff (s : String) :
    (decodeGroup s = '?' ↔ ¬ validGroupSpec s)
    ∧ (validGroupSpec s →
        'A' ≤ decodeGroup s ∧ decodeGroup s ≤ 'Z') := by
  rcases decodeGroup_cases s with ⟨hv, hval, heq⟩ | ⟨hnv, heq⟩
  · obtain ⟨hne, hlow, hhigh⟩ := ofNat_letter_range _ hval
    constructor
    · rw [heq]
      exact ⟨fun h => absurd h hne, fun h => absurd hv h⟩
    · intro _
      rw [heq]
      exact ⟨hlow, hhigh⟩
  · rw [heq]
    exact ⟨⟨fun _ => hnv, fun _ => rfl⟩, fun hv => absurd hv hnv⟩

/-- Witness for decodeGroup_unknown_iff: a concrete valid group decodes to
an uppercase letter. -/
theorem decodeGroup_unknown_iff_witness :
    'A' ≤ decodeGroup "BAABA" ∧ decodeGroup "BAABA" ≤ 'Z' :=
  (decodeGroup_unknown_iff "BAABA").2 (by decide)

/-- Counterexample to claim C3 as stated: the group BBABA (5-bit value 26)
passes isValidGroup, yet decodeGroup maps it to the unknown marker, so
isValidGroup is not equivalent to decodeGroup returning a letter. -/
theorem isValidGroup_not_equiv_decode :
    isValidGroup "BBABA" = true ∧ decodeGroup "BBABA" = '?' := by
  constructor <;> decide

/-- Claim C3 as amended: isValidGroup returns true exactly when the input
has length 5 and every character uppercases to A or B; decodeGroup
returning a letter implies isValidGroup, but the converse fails for the
six groups whose 5-bit value lies in 26 to 31, which isValidGroup accepts
although decodeGroup maps them to the unknown marker. -/
theorem isValidGroup_characterization (g : String) :
    (isValidGroup g = true ↔
      g.length = 5 ∧ ∀ c ∈ g.data, c.toUpper = 'A' ∨ c.toUpper = 'B')
    ∧ (decodeGroup g ≠ '?' → isValidGroup g = true) := by
  have hchar : isValidGroup g = true ↔
      g.length = 5 ∧ ∀ c ∈ g.data, c.toUpper = 'A' ∨ c.toUpper = 'B' := by
    unfold isValidGroup
    by_cases hlen : g.length = 5
    · simp [hlen, List.all_eq_true]
    · simp [hlen]
  refine ⟨hchar, fun hne => ?_⟩
  rcases decodeGroup_cases g with ⟨hv, _, _⟩ | ⟨_, heq⟩
  · exact hchar.mpr ⟨hv.1, hv.2.1⟩
  · exact absurd heq hne

/-- Witness for isValidGroup_characterization: a concrete group that
decodes to a letter is accepted by isValidGroup. -/
theorem isValidGroup_characterization_witness :
    isValidGroup "AAAAA" = true :=
  (isValidGroup_characterization "AAAAA").2 (by decide)

/-- Embedding of window.BaconianCipher.decodeGroups (baconian.js, lines
75-80). The Array.isArray guard of the source is modelled by the Option
layer: none stands for a non-array argument and yields the empty string;
an array is mapped through decodeGroup and the one-character results are
joined in order, which is exactly the string of the decoded characters. -/
def decodeGroups (groups : Option (List String)) : String :=
  match groups with
  | none => ""
  | some gs => ⟨gs.map decodeGroup⟩

/-- Claim C4: decodeGroups maps decodeGroup over its input in order and
concatenates the results (characterized by the empty and cons cases), a
non-array input yields the empty string, and the two full-message examples
decode to RELIABLE and SESSION. -/
theorem decodeGroups_map_concat :
    decodeGroups none = ""
    ∧ decodeGroups (some []) = ""
    ∧ (∀ (g : String) (gs : List String),
        decodeGroups (some (g :: gs)) =
          String.singleton (decodeGroup g) ++ decodeGroups (some gs))
    ∧ decodeGroups (some ["BAAAB", "AABAA", "ABABB", "ABAAA", "AAAAA",
        "AAAAB", "ABABB", "AABAA"]) = "RELIABLE"
    ∧ decodeGroups (some ["BAABA", "AABAA", "BAABA", "BAABA", "ABAAA",
        "ABBBA", "ABBAB"]) = "SESSION" := by
  refine ⟨rfl, rfl, fun g gs => rfl, by decide, by decide⟩

/-- Claim C9: the decoded plaintext always aligns one to one with the
input groups: every group, valid or not, contributes exactly one character
to the output of decodeGroups. -/
theorem decodeGroups_length (gs : List String) :
    (decodeGroups (some gs)).length = gs.length := by
  show (gs.map decodeGroup).length = gs.length
  exact List.length_map _ _

/-- Test of the character class a-zA-Z of the regular expression in
normalizePlaintext (baconian.js, line 92). -/
def isAsciiLetter (c : Char) : Bool :=
  ('a' ≤ c && c ≤ 'z') || ('A' ≤ c && c ≤ 'Z')

/-- Embedding of window.BaconianCipher.normalizePlaintext (baconian.js,
lines 87-93): every character outside a-zA-Z is removed by the global
regular-expression replace, and the remainder is uppercased. The falsy
guard of the source returns the empty string for the empty string, which
the filter also does. -/
def normalizePlaintext (input : String) : String :=
  ⟨(input.data.filter isAsciiLetter).map Char.toUpper⟩

/-- Claim C5: normalizePlaintext removes every character that is not an
ASCII letter and uppercases the remainder. The behaviour is characterized
compositionally: it distributes over concatenation, a single non-letter
becomes the empty string while a single letter is uppercased, and the two
concrete examples of the specification hold. -/
theorem normalizePlaintext_filter_upper :
    (∀ s t : String,
      normalizePlaintext (s ++ t) = normalizePlaintext s ++ normalizePlaintext t)
    ∧ (∀ c : Char, normalizePlaintext (String.singleton c) =
        if isAsciiLetter c then String.singleton c.toUpper else "")
    ∧ normalizePlaintext "Hello World!" = "HELLOWORLD"
    ∧ normalizePlaintext "SeSsIoN" = "SESSION" := by
  refine ⟨fun s t => ?_, fun c => ?_, by decide, by decide⟩
  · show (⟨(((s ++ t).data).filter isAsciiLetter).map Char.toUpper⟩ : String) =
      ⟨((s.data.filter isAsciiLetter).map Char.toUpper)
        ++ ((t.data.filter isAsciiLetter).map Char.toUpper)⟩
    have hdata : (s ++ t).data = s.data ++ t.data := rfl
    rw [hdata, List.filter_append, List.map_append]
  · by_cases h : isAsciiLetter c
    · rw [if_pos h]
      show (⟨([c].filter isAsciiLetter).map Char.toUpper⟩ : String) =
        String.singleton c.toUpper
      rw [List.filter_cons_of_pos h]
      rfl
    · rw [if_neg h]
      show (⟨([c].filter isAsciiLetter).map Char.toUpper⟩ : String) = ""
      rw [List.filter_cons_of_neg (by simpa using h)]
      rfl

/-- State of one puzzle chip as the controller sees it: the revealed CSS
class, the aria-pressed attribute, the data-group attribute (none when the
attribute is absent) and the text of the chip-back element (none when no
such element exists in the card). -/
structure Chip where
  revealed : Bool
  ariaPressed : String
  dataGroup : Option String
  backText : Option String
deriving DecidableEq

/-- Core of toggleChip (app.js, lines 78-84) on a present chip card:
classList.toggle flips the revealed class and aria-pressed is set to the
new state. -/
def toggleChipCore (c : Chip) : Chip :=
  let isRevealed := !c.revealed
  { c with revealed := isRevealed,
           ariaPressed := if isRevealed then "true" else "false" }

/-- Embedding of toggleChip (app.js, lines 78-84): a missing chip card is
a silent no-op, otherwise the revealed class is toggled. -/
def toggleChip (chipCard : Option Chip) : Option Chip :=
  match chipCard with
  | none => none
  | some c => some (toggleChipCore c)

/-- Embedding of the eventual effect of revealAllChips (app.js, lines
90-108): a missing container is a silent no-op; otherwise every chip that
is not yet revealed is revealed (with aria-pressed set), each on its own
staggered timer, all of which fire unconditionally, while already revealed
chips are left untouched. The stagger delay itself is timing and is not
modelled. -/
def revealAllChips (container : Option (List Chip)) : Option (List Chip) :=
  match container with
  | none => none
  | some chipCards =>
    some (chipCards.map fun card =>
      if card.revealed then card
      else { card with revealed := true, ariaPressed := "true" })

/-- Embedding of showHint (app.js, lines 166-174): a missing chip
container is a silent no-op; otherwise the first chip card, if present and
not yet revealed, is toggled, and nothing else changes. -/
def showHint (container : Option (List Chip)) : Option (List Chip) :=
  match container with
  | none => none
  | some [] => some []
  | some (firstCard :: rest) =>
    if !firstCard.revealed then some (toggleChipCore firstCard :: rest)
    else some (firstCard :: rest)

/-- Counterexample to claim C7 as stated: toggleChip applied to an
already-revealed chip does not leave it revealed; classList.toggle removes
the revealed class, transitioning the chip back to hidden. -/
theorem toggleChip_not_idempotent :
    toggleChip (some ⟨true, "true", none, none⟩) =
      some ⟨false, "false", none, none⟩ := by decide

/-- Claim C7 as amended: revealAllChips and showHint never transition a
chip from revealed back to hidden — revealAllChips leaves every already
revealed chip untouched, afterwards every chip is revealed, and it is
idempotent; showHint is a no-op when the first chip is already revealed —
but toggleChip genuinely toggles, so it sends an already revealed chip
back to hidden. -/
theorem chip_reveal_one_way :
    (∀ chips : List Chip,
      revealAllChips (revealAllChips (some chips)) = revealAllChips (some chips))
    ∧ (∀ (chips out : List Chip), revealAllChips (some chips) = some out →
        ∀ i (h : i < chips.length) (h2 : i < out.length),
          (chips.get ⟨i, h⟩).revealed = true →
          out.get ⟨i, h2⟩ = chips.get ⟨i, h⟩)
    ∧ (∀ (chips out : List Chip), revealAllChips (some chips) = some out →
        ∀ c ∈ out, c.revealed = true)
    ∧ (∀ (firstCard : Chip) (rest : List Chip), firstCard.revealed = true →
        showHint (some (firstCard :: rest)) = some (firstCard :: rest))
    ∧ (∀ c : Chip, c.revealed = true →
        (toggleChip (some c)).map Chip.revealed = some false) := by
  refine ⟨fun chips => ?_, fun chips out hout i h h2 hrev => ?_,
    fun chips out hout c hc => ?_, fun firstCard rest hrev => ?_,
    fun c hrev => ?_⟩
  · simp only [revealAllChips, List.map_map, Option.some.injEq]
    apply List.map_congr_left
    intro c _
    by_cases hc : c.revealed <;> simp [hc]
  · have hout' : out = chips.map fun card =>
        if card.revealed then card
        else { card with revealed := true, ariaPressed := "true" } :=
      (Option.some.inj hout).symm
    subst hout'
    simp only [List.get_eq_getElem] at hrev ⊢
    simp only [List.getElem_map]
    rw [if_pos hrev]
  · have hout' : out = chips.map fun card =>
        if card.revealed then card
        else { card with revealed := true, ariaPressed := "true" } :=
      (Option.some.inj hout).symm
    subst hout'
    rcases List.mem_map.mp hc with ⟨a, _, rfl⟩
    by_cases ha : a.revealed <;> simp [ha]
  · simp [showHint, hrev]
  · simp [toggleChip, toggleChipCore, hrev]

/-- Witness for chip_reveal_one_way: the toggling conjunct applied to a
concrete revealed chip. -/
theorem chip_reveal_one_way_witness :
    (toggleChip (some ⟨true, "true", some "AAAAA", some "A"⟩)).map
      Chip.revealed = some false :=
  chip_reveal_one_way.2.2.2.2 ⟨true, "true", some "AAAAA", some "A"⟩ rfl

/-- State of the feedback region: its CSS class string and its text. -/
structure FeedbackArea where
  className : String
  textContent : String
deriving DecidableEq

/-- State of the hint button: its CSS display property. -/
structure HintButton where
  display : String
deriving DecidableEq

/-- Embedding of checkGuess (app.js, lines 135-160). The arguments stand
for the elements looked up by id: none means the element is absent, in
which case (for the guess input or the feedback region) the function
returns without touching anything. Otherwise the live input value and the
expected answer are both normalized: equality gives success feedback and
hides the hint button, an empty normalized guess clears the feedback, and
anything else gives error feedback and shows the hint button. The result
is the new state of the feedback region and of the hint button. -/
def checkGuess (guessInput : Option String) (feedbackArea : Option FeedbackArea)
    (hintButton : Option HintButton) (expectedPlaintext : String) :
    Option FeedbackArea × Option HintButton :=
  match guessInput, feedbackArea with
  | some value, some _ =>
    let userGuess := normalizePlaintext value
    let normalizedExpected := normalizePlaintext expectedPlaintext
    if userGuess = normalizedExpected then
      (some ⟨"feedback-area success",
        "✓ Correct! The answer is \"" ++ expectedPlaintext ++ "\". Well done!"⟩,
       hintButton.map fun h => { h with display := "none" })
    else if userGuess = "" then
      (some ⟨"feedback-area hidden", ""⟩, hintButton)
    else
      (some ⟨"feedback-area error", "✗ That\x27s not quite right. Try again!"⟩,
       hintButton.map fun h => { h with display := "inline-block" })
  | _, _ => (feedbackArea, hintButton)

/-- Counterexample to claim C6 as stated: when the expected answer itself
normalizes to the empty string, an empty guess does not clear the
feedback; the equality branch fires first and reports success. -/
theorem checkGuess_empty_guess_cex :
    (checkGuess (some "") (some ⟨"feedback-area hidden", ""⟩) none "!!!").1 =
      some ⟨"feedback-area success", "✓ Correct! The answer is \"!!!\". Well done!"⟩
    ∧ (checkGuess (some "") (some ⟨"feedback-area hidden", ""⟩) none "!!!").1 ≠
      some ⟨"feedback-area hidden", ""⟩ := by
  constructor <;> decide

/-- Claim C6 as amended: checkGuess normalizes both the live guess and the
expected answer and compares for exact equality, so matching is case,
punctuation and whitespace insensitive; a guess whose normalization is
empty clears the feedback provided the expected answer normalizes to a
non-empty string (when the expected answer also normalizes to empty, the
equality branch fires first and reports success), and an empty-normalized
guess is never marked incorrect; every other non-matching guess yields
error feedback. -/
theorem checkGuess_feedback (guess expected : String) (fb : FeedbackArea)
    (hint : Option HintButton) :
    (normalizePlaintext guess = normalizePlaintext expected →
      (checkGuess (some guess) (some fb) hint expected).1 =
        some ⟨"feedback-area success",
          "✓ Correct! The answer is \"" ++ expected ++ "\". Well done!"⟩)
    ∧ (normalizePlaintext guess = "" → normalizePlaintext expected ≠ "" →
      (checkGuess (some guess) (some fb) hint expected).1 =
        some ⟨"feedback-area hidden", ""⟩)
    ∧ (normalizePlaintext guess ≠ "" →
       normalizePlaintext guess ≠ normalizePlaintext expected →
      (checkGuess (some guess) (some fb) hint expected).1 =
        some ⟨"feedback-area error", "✗ That\x27s not quite right. Try again!"⟩)
    ∧ (checkGuess (some "r e l i a b l e") (some fb) hint "RELIABLE").1 =
        some ⟨"feedback-area success",
          "✓ Correct! The answer is \"RELIABLE\". Well done!"⟩
    ∧ (checkGuess (some "RELIABLE!") (some fb) hint "RELIABLE").1 =
        some ⟨"feedback-area success",
          "✓ Correct! The answer is \"RELIABLE\". Well done!"⟩ := by
  refine ⟨fun heq => ?_, fun hg hexp => ?_, fun hg hne => ?_, ?_, ?_⟩
  · simp [checkGuess, heq]
  · have hne2 : ¬ (("" : String) = normalizePlaintext expected) :=
      fun h => hexp h.symm
    simp [checkGuess, hg, hne2]
  · simp [checkGuess, hne, hg]
  · have heq : normalizePlaintext "r e l i a b l e" =
        normalizePlaintext "RELIABLE" := by decide
    simp [checkGuess, heq]
  · have heq : normalizePlaintext "RELIABLE!" =
        normalizePlaintext "RELIABLE" := by decide
    simp [checkGuess, heq]

/-- Witness for checkGuess_feedback: a concrete wrong guess yields error
feedback. -/
theorem checkGuess_feedback_witness :
    (checkGuess (some "xyz") (some ⟨"feedback-area hidden", ""⟩) none
        "RELIABLE").1 =
      some ⟨"feedback-area error", "✗ That\x27s not quite right. Try again!"⟩ :=
  (checkGuess_feedback "xyz" "RELIABLE" ⟨"feedback-area hidden", ""⟩ none).2.2.1
    (by decide) (by decide)

/-- Claim C10: the equality comparison of checkGuess is evaluated before
the empty-guess special case, so when the expected answer itself
normalizes to the empty string an empty guess reports success rather than
clearing the feedback. -/
theorem checkGuess_empty_expected (guess expected : String) (fb : FeedbackArea)
    (hint : Option HintButton) (hexp : normalizePlaintext expected = "")
    (hg : normalizePlaintext guess = "") :
    (checkGuess (some guess) (some fb) hint expected).1 =
      some ⟨"feedback-area success",
        "✓ Correct! The answer is \"" ++ expected ++ "\". Well done!"⟩
    ∧ (checkGuess (some guess) (some fb) hint expected).1 ≠
      some ⟨"feedback-area hidden", ""⟩ := by
  have heq : normalizePlaintext guess = normalizePlaintext expected := by
    rw [hg, hexp]
  constructor
  · simp [checkGuess, heq]
  · simp [checkGuess, heq]

/-- Witness for checkGuess_empty_expected at a concrete punctuation-only
expected answer. -/
theorem checkGuess_empty_expected_witness :
    (checkGuess (some "") (some ⟨"feedback-area error", "x"⟩) none "...").1 =
      some ⟨"feedback-area success",
        "✓ Correct! The answer is \"...\". Well done!"⟩
    ∧ (checkGuess (some "") (some ⟨"feedback-area error", "x"⟩) none "...").1 ≠
      some ⟨"feedback-area hidden", ""⟩ :=
  checkGuess_empty_expected "" "..." ⟨"feedback-area error", "x"⟩ none
    (by decide) (by decide)

/-- Embedding of the state effect of initializePuzzle (app.js, lines
182-265) on the chip container: a missing container logs a warning and
returns without doing anything; otherwise every chip card whose data-group
attribute is present and non-empty (the truthiness test of the source) and
which has a chip-back element gets that element's text set to the decoded
letter. Handler registration is event wiring with no effect on the state
modelled here. -/
def initializePuzzle (chipsContainer : Option (List Chip)) :
    Option (List Chip) :=
  match chipsContainer with
  | none => none
  | some chipCards =>
    some (chipCards.map fun card =>
      match card.dataGroup with
      | none => card
      | some encoded =>
        if encoded = "" then card
        else
          match card.backText with
          | none => card
          | some _ =>
            { card with backText := some (String.singleton (decodeGroup encoded)) })

/-- Claim C8: every controller operation invoked on a missing binding
target is a silent no-op that leaves all puzzle state unchanged — being
total Lean functions, none of them can raise a fatal error. checkGuess
returns the feedback region and hint button untouched when the guess input
or the feedback region is absent; revealAllChips, showHint,
initializePuzzle and toggleChip return their absent target unchanged. -/
theorem missing_target_noop :
    (∀ (fb : Option FeedbackArea) (hint : Option HintButton) (expected : String),
      checkGuess none fb hint expected = (fb, hint))
    ∧ (∀ (g : Option String) (hint : Option HintButton) (expected : String),
      checkGuess g none hint expected = (none, hint))
    ∧ revealAllChips none = none
    ∧ showHint none = none
    ∧ initializePuzzle none = none
    ∧ toggleChip none = none := by
  refine ⟨fun fb hint expected => ?_, fun g hint expected => ?_,
    rfl, rfl, rfl, rfl⟩
  · cases fb <;> rfl
  · cases g <;> rfl
